import Mathlib

/-!
# Podcast catalog view (`src/components/Main/Main.js`)

A shallow embedding of the list transformations and state updates of the `Main`
component: `sortedData`, `filteredData`, `toggleSeasonVisibility`, the two fetch
handlers, `toggleFavorite` and the two favourites sorts.

Component state is passed explicitly.  The host built-ins whose result depends on
the JavaScript engine (`localeCompare`, `toLowerCase`, `Number`, `Date`) are the
fields of a `Runtime` record; every general theorem holds for every runtime.
-/

namespace PodcastApp

/-! ## Host built-ins -/

/-- The engine built-ins called by `Main.js`. -/
structure Runtime where
  /-- The value of `a.localeCompare(b)`: negative, zero or positive. -/
  localeCompare : String → String → Int
  /-- The value of `s.toLowerCase()`. -/
  toLowerCase : String → String
  /-- The value of `Number(s)` when it is an integer; `none` when it is `NaN`,
  an infinity or a fraction (none of which is ever an element of a list of
  integer genre codes). -/
  toNumber : String → Option Int
  /-- The time value in milliseconds of `new Date(s)`; `none` for an Invalid
  Date, whose numeric value is `NaN`. -/
  dateValue : String → Option Int

/-- ECMAScript's notion of a consistent comparator, on the sign of the result:
`a < b` exactly when `b > a`, and `≤` is transitive.  `localeCompare` is required
by the language specification to be one. -/
structure ConsistentComparator {α : Type} (cmp : α → α → Int) : Prop where
  antisymm : ∀ a b, cmp a b < 0 ↔ 0 < cmp b a
  trans : ∀ a b c, cmp a b ≤ 0 → cmp b c ≤ 0 → cmp a c ≤ 0

/-- The number `SortCompare` hands to the sorting algorithm: the comparator's
result, with `undefined` and `NaN` (here `none`) replaced by `+0`. -/
def sortCompare {α : Type} (comparefn : α → α → Option Int) (x y : α) : Int :=
  (comparefn x y).getD 0

/-- Insert `x` in front of the first element it does not compare greater than. -/
def insertSorted {α : Type} (comparefn : α → α → Option Int) (x : α) : List α → List α
  | [] => [x]
  | y :: ys =>
    if sortCompare comparefn x y ≤ 0 then x :: y :: ys
    else y :: insertSorted comparefn x ys

/-- The built-in `Array.prototype.sort(comparefn)` on a copy of the array.  The
language requires the sort to be stable, which determines the result for every
consistent comparator; the algorithm written here is a stable insertion sort. -/
def jsSort {α : Type} (comparefn : α → α → Option Int) : List α → List α
  | [] => []
  | x :: xs => insertSorted comparefn x (jsSort comparefn xs)

/-- Substring search on character lists. -/
def includesChars : List Char → List Char → Bool
  | [], search => search.isPrefixOf []
  | c :: s, search => search.isPrefixOf (c :: s) || includesChars s search

/-- The built-in `s.includes(search)` on strings (search from position 0),
a string being its sequence of characters. -/
def includes (s search : String) : Bool :=
  includesChars s.data search.data

/-! ## Data model -/

/-- A show of the list endpoint. -/
structure Show where
  id : String
  title : String
  image : String
  seasons : Nat
  genres : List Int
  updated : String
  deriving DecidableEq, Repr

/-- The subtraction `new Date(a) - new Date(b)`; `none` is `NaN`. -/
def dateDiff (a b : Option Int) : Option Int :=
  match a, b with
  | some x, some y => some (x - y)
  | _, _ => none

/-- The comparator passed to `sort` in `sortedData` (Main.js 63-73).  When
`sortType` is neither `"title"` nor `"date"` the arrow function returns
`undefined`. -/
def compareShows (rt : Runtime) (sortType sortOrder : String) (a b : Show) : Option Int :=
  if sortType = "title" then
    some (if sortOrder = "asc" then rt.localeCompare a.title b.title
          else rt.localeCompare b.title a.title)
  else if sortType = "date" then
    (if sortOrder = "asc" then dateDiff (rt.dateValue a.updated) (rt.dateValue b.updated)
     else dateDiff (rt.dateValue b.updated) (rt.dateValue a.updated))
  else none

/-- The derived value `sortedData` (Main.js 63-73): `[...data].sort(...)`. -/
def sortedData (rt : Runtime) (data : List Show) (sortType sortOrder : String) : List Show :=
  jsSort (compareShows rt sortType sortOrder) data

/-- The filter callback of `filteredData` (Main.js 75-83).  A string is truthy
exactly when it is not empty. -/
def showMatches (rt : Runtime) (filterText selectedGenre : String) (s : Show) : Bool :=
  let titleMatches := includes (rt.toLowerCase s.title) (rt.toLowerCase filterText)
  let genreMatches :=
    if selectedGenre ≠ "" then
      (match rt.toNumber selectedGenre with
       | some n => s.genres.contains n
       | none => false)
    else true
  titleMatches && genreMatches

/-- The derived value `filteredData` (Main.js 75-83). -/
def filteredData (rt : Runtime) (data : List Show) (sortType sortOrder : String)
    (filterText selectedGenre : String) : List Show :=
  (sortedData rt data sortType sortOrder).filter (showMatches rt filterText selectedGenre)

/-! ## Season visibility -/

/-- What a property read on the visibility object can produce: `undefined`, a
stored boolean, or a member inherited from `Object.prototype` (a function, or
for `__proto__` the prototype object itself). -/
inductive JSValue where
  | undefined
  | bool (b : Bool)
  | inherited
  deriving DecidableEq, Repr

/-- The conversion `ToBoolean`: functions and objects are truthy. -/
def toBoolean : JSValue → Bool
  | .undefined => false
  | .bool b => b
  | .inherited => true

/-- The property names every plain object inherits from `Object.prototype`. -/
def objectPrototypeKeys : List String :=
  ["constructor", "hasOwnProperty", "isPrototypeOf", "propertyIsEnumerable",
   "toLocaleString", "toString", "valueOf", "__proto__", "__defineGetter__",
   "__defineSetter__", "__lookupGetter__", "__lookupSetter__"]

/-- The own properties of the `seasonVisibility` object, in insertion order.
It starts as the empty object literal and only booleans are ever stored. -/
abbrev VisibilityMap := List (String × Bool)

/-- The property read `obj[key]`: the own property when there is one, otherwise
what the prototype chain provides. -/
def getProperty (obj : VisibilityMap) (key : String) : JSValue :=
  match obj.lookup key with
  | some b => .bool b
  | none => if key ∈ objectPrototypeKeys then .inherited else .undefined

/-- The object literal with a spread and a computed key: own properties of `obj`
copied in order, then `key` defined as an own property with value `v`. -/
def setProperty : VisibilityMap → String → Bool → VisibilityMap
  | [], key, v => [(key, v)]
  | (k, b) :: rest, key, v =>
    if k = key then (key, v) :: rest else (k, b) :: setProperty rest key v

/-- The state updater of `toggleSeasonVisibility` (Main.js 32-37). -/
def toggleSeasonVisibility (prevState : VisibilityMap) (seasonTitle : String) : VisibilityMap :=
  setProperty prevState seasonTitle (!toBoolean (getProperty prevState seasonTitle))

/-! ## Show detail and component state -/

/-- An episode object.  JavaScript compares objects by identity: `ref` stands
for the identity of the object, so two episodes with the same fields and a
different `ref` are different values. -/
structure Episode where
  ref : Nat
  title : String
  description : String
  file : String
  deriving DecidableEq, Repr

/-- A season of a show detail; `count` is absent until the component adds it. -/
structure Season where
  title : String
  image : String
  episodes : List Episode
  count : Option Nat
  deriving DecidableEq, Repr

/-- The body of the detail endpoint. -/
structure ShowDetail where
  id : String
  title : String
  image : String
  description : String
  seasons : List Season
  deriving DecidableEq, Repr

/-- The state variables of `Main` (Main.js 18-27). -/
structure State where
  data : List Show
  loading : Bool
  sortType : String
  sortOrder : String
  filterText : String
  selectedGenre : String
  selectedPodcastDetails : Option ShowDetail
  seasonVisibility : VisibilityMap
  isAudioPlaying : Bool
  favorites : List Episode
  deriving DecidableEq, Repr

/-- The initial values given to `useState`. -/
def initialState : State :=
  { data := [], loading := true, sortType := "title", sortOrder := "asc",
    filterText := "", selectedGenre := "", selectedPodcastDetails := none,
    seasonVisibility := [], isAudioPlaying := false, favorites := [] }

/-- What a call of `fetch` followed by `response.json()` can do: the fetch
promise rejects, or it resolves to a response with its `ok` flag whose body
parses to a value or fails to parse. -/
inductive FetchResult (β : Type) where
  | rejected (error : String)
  | response (ok : Bool) (json : Except String β)

/-- The promise chain of the mount effect (Main.js 41-52), up to `.catch`: the
two `.then` steps, a rejection skipping the remaining steps. -/
def listFetchChain (s : State) (r : FetchResult (List Show)) : Except String State := do
  let response ← (match r with
    | .rejected error => throw error
    | .response _ json => pure json)
  let data ← response
  pure { s with data := data, loading := false }

/-- The mount effect (Main.js 41-52) with its `.catch` handler.  The result is
the settled promise: `.ok` with the new state and the lines written to
`console.error`, or `.error` if a rejection were left unhandled. -/
def listFetchEffect (s : State) (r : FetchResult (List Show)) :
    Except String (State × List String) :=
  tryCatch ((fun s1 => (s1, [])) <$> listFetchChain s r)
    (fun error => pure ({ s with loading := false }, ["Error fetching data: " ++ error]))

/-- The `try` block of `fetchPodcastDetails` (Main.js 98-115). -/
def fetchPodcastDetailsTry (s : State) (r : FetchResult ShowDetail) :
    Except String (State × List String) := do
  let (ok, json) ← (match r with
    | .rejected error => throw error
    | .response ok json => pure (ok, json))
  if ok then
    let data ← json
    let seasonsWithCount :=
      data.seasons.map (fun season => { season with count := some season.episodes.length })
    pure ({ s with selectedPodcastDetails := some { data with seasons := seasonsWithCount } }, [])
  else
    pure (s, ["Error fetching podcast details"])

/-- The function `fetchPodcastDetails` (Main.js 97-119); `r` is what the request
for the show's detail URL produced. -/
def fetchPodcastDetails (s : State) (r : FetchResult ShowDetail) :
    Except String (State × List String) :=
  tryCatch (fetchPodcastDetailsTry s r)
    (fun error => pure (s, ["Error fetching podcast details: " ++ error]))

/-! ## Favourites -/

/-- The new `favorites` set by `toggleFavorite` (Main.js 146-154). -/
def toggleFavorite (favorites : List Episode) (episode : Episode) : List Episode :=
  if favorites.contains episode then
    favorites.filter (fun fav => fav != episode)
  else
    favorites ++ [episode]

/-- The new `favorites` set by `addEpisodeToFavorites` (Main.js 157-159), a
function that no rendered control calls. -/
def addEpisodeToFavorites (favorites : List Episode) (episode : Episode) : List Episode :=
  favorites ++ [episode]

/-- The new `favorites` set by `sortFavoritesByTitleAZ` (Main.js 162-167). -/
def sortFavoritesByTitleAZ (rt : Runtime) (favorites : List Episode) : List Episode :=
  jsSort (fun a b => some (rt.localeCompare a.title b.title)) favorites

/-- The new `favorites` set by `sortFavoritesByTitleZA` (Main.js 170-175). -/
def sortFavoritesByTitleZA (rt : Runtime) (favorites : List Episode) : List Episode :=
  jsSort (fun a b => some (rt.localeCompare b.title a.title)) favorites

/-- The favourites handlers wired to the rendered buttons (Main.js 231-236, 299). -/
inductive FavoritesAction where
  | toggle (episode : Episode)
  | sortAZ
  | sortZA

/-- One handler call on the current favourites. -/
def applyAction (rt : Runtime) (favorites : List Episode) : FavoritesAction → List Episode
  | .toggle episode => toggleFavorite favorites episode
  | .sortAZ => sortFavoritesByTitleAZ rt favorites
  | .sortZA => sortFavoritesByTitleZA rt favorites

/-- The favourites after a sequence of handler calls from the initial empty list. -/
def runActions (rt : Runtime) (actions : List FavoritesAction) : List Episode :=
  actions.foldl (applyAction rt) []

/-! ## A concrete runtime for the scenarios -/

/-- Canonical composition of the one decomposed sequence used in the examples:
`e` followed by U+0301 (combining acute) becomes U+00E9. -/
def composeChars : List Char → List Char
  | [] => []
  | [c] => [c]
  | c :: d :: rest =>
    if c = 'e' ∧ d = Char.ofNat 0x301 then Char.ofNat 0xE9 :: composeChars rest
    else c :: composeChars (d :: rest)

/-- Three-way lexicographic comparison of character lists by code point. -/
def compareCodePoints : List Char → List Char → Int
  | [], [] => 0
  | [], _ :: _ => -1
  | _ :: _, [] => 1
  | a :: as, b :: bs =>
    if a.toNat < b.toNat then -1
    else if b.toNat < a.toNat then 1
    else compareCodePoints as bs

/-- The `updated` strings of the scenarios with their time value. -/
def sampleDates : List (String × Int) :=
  [("2020-01-01", 1577836800000), ("2021-01-01", 1609459200000)]

/-- A small runtime agreeing with a JavaScript engine on the strings of the
scenarios: canonically equivalent strings compare equal, other strings compare
by code point; ASCII letters are lower-cased; decimal digit strings convert to
their number. -/
def sampleRuntime : Runtime where
  localeCompare a b := compareCodePoints (composeChars a.data) (composeChars b.data)
  toLowerCase s := ⟨s.data.map Char.toLower⟩
  toNumber s :=
    if s.data ≠ [] ∧ s.data.all Char.isDigit then
      some (Int.ofNat (s.data.foldl (fun n c => 10 * n + (c.toNat - 48)) 0))
    else none
  dateValue s := sampleDates.lookup s

def showB : Show :=
  { id := "1", title := "B", image := "", seasons := 1, genres := [1], updated := "2020-01-01" }

def showA : Show :=
  { id := "2", title := "A", image := "", seasons := 1, genres := [2], updated := "2021-01-01" }

/-- A show whose title is the single code point U+00E9. -/
def showComposed : Show :=
  { id := "3", title := "\u00e9", image := "", seasons := 1, genres := [3],
    updated := "2020-01-01" }

/-- A show whose title is `e` followed by the combining acute accent U+0301:
a different string, canonically equivalent to U+00E9. -/
def showDecomposed : Show :=
  { id := "4", title := "e\u0301", image := "", seasons := 1, genres := [3],
    updated := "2021-01-01" }

/-- A show whose `updated` field is not a date: `new Date("bad")` is an Invalid
Date. -/
def showUndated : Show :=
  { id := "5", title := "C", image := "", seasons := 1, genres := [1], updated := "bad" }

def episode1 : Episode := { ref := 1, title := "Pilot", description := "", file := "a.mp3" }

def episode2 : Episode := { ref := 2, title := "Finale", description := "", file := "b.mp3" }

/-- The detail body of the scenario: one season S1 with two episodes. -/
def detailS1 : ShowDetail :=
  { id := "X", title := "Show", image := "show.png", description := "about",
    seasons := [{ title := "S1", image := "s1.png", episodes := [episode1, episode2],
                  count := none }] }

/-! ## Relations used to state the properties -/

/-- Chronological order of two shows: both `updated` fields are dates and the
first is not later than the second. -/
def chronological (rt : Runtime) (a b : Show) : Prop :=
  match rt.dateValue a.updated, rt.dateValue b.updated with
  | some ta, some tb => ta ≤ tb
  | _, _ => False

instance (rt : Runtime) (a b : Show) : Decidable (chronological rt a b) :=
  decidable_of_iff
    ((match rt.dateValue a.updated, rt.dateValue b.updated with
      | some ta, some tb => decide (ta ≤ tb)
      | _, _ => false) = true)
    (by unfold chronological; split <;> simp)

/-- The show `a` is not after `b` under the selected key: the title comparison,
or the chronological order of `updated`. -/
def keyLE (rt : Runtime) (sortType : String) (a b : Show) : Prop :=
  if sortType = "title" then rt.localeCompare a.title b.title ≤ 0 else chronological rt a b

instance (rt : Runtime) (sortType : String) (a b : Show) : Decidable (keyLE rt sortType a b) :=
  inferInstanceAs (Decidable
    (if sortType = "title" then rt.localeCompare a.title b.title ≤ 0 else chronological rt a b))

/-- The show `a` may stand before `b`: non-decreasing keys for `"asc"`,
non-increasing keys otherwise. -/
def inOrder (rt : Runtime) (sortType sortOrder : String) (a b : Show) : Prop :=
  if sortOrder = "asc" then keyLE rt sortType a b else keyLE rt sortType b a

instance (rt : Runtime) (sortType sortOrder : String) (a b : Show) :
    Decidable (inOrder rt sortType sortOrder a b) :=
  inferInstanceAs (Decidable
    (if sortOrder = "asc" then keyLE rt sortType a b else keyLE rt sortType b a))

/-- The keys of two shows compare equal. -/
def sameKey (rt : Runtime) (sortType : String) (a b : Show) : Prop :=
  if sortType = "title" then rt.localeCompare a.title b.title = 0
  else rt.dateValue a.updated = rt.dateValue b.updated

instance (rt : Runtime) (sortType : String) (a b : Show) : Decidable (sameKey rt sortType a b) :=
  inferInstanceAs (Decidable
    (if sortType = "title" then rt.localeCompare a.title b.title = 0
     else rt.dateValue a.updated = rt.dateValue b.updated))

/-- The match condition of the specification: the lower-cased filter text is a
substring of the lower-cased title and, when a genre is selected, the selected
code converted to a number is one of the show's genres. -/
def matchesSpec (rt : Runtime) (filterText selectedGenre : String) (s : Show) : Prop :=
  (rt.toLowerCase filterText).data <:+: (rt.toLowerCase s.title).data ∧
    (selectedGenre ≠ "" → ∃ n ∈ s.genres, rt.toNumber selectedGenre = some n)

instance (rt : Runtime) (filterText selectedGenre : String) (s : Show) :
    Decidable (matchesSpec rt filterText selectedGenre s) :=
  inferInstanceAs (Decidable
    ((rt.toLowerCase filterText).data <:+: (rt.toLowerCase s.title).data ∧
      (selectedGenre ≠ "" → ∃ n ∈ s.genres, rt.toNumber selectedGenre = some n)))

/-! ## The built-in sort -/

theorem insertSorted_perm {α : Type} (f : α → α → Option Int) (x : α) (l : List α) :
    (insertSorted f x l).Perm (x :: l) := by
  induction l with
  | nil => exact List.Perm.refl _
  | cons y ys ih =>
    by_cases h : sortCompare f x y ≤ 0
    · simp [insertSorted, h]
    · simp only [insertSorted, h, if_false]
      exact (ih.cons y).trans (List.Perm.swap x y ys)

theorem jsSort_perm {α : Type} (f : α → α → Option Int) (l : List α) :
    (jsSort f l).Perm l := by
  induction l with
  | nil => exact List.Perm.refl _
  | cons x xs ih =>
    simp only [jsSort]
    exact (insertSorted_perm f x _).trans (ih.cons x)

theorem mem_insertSorted {α : Type} (f : α → α → Option Int) (x y : α) (l : List α) :
    y ∈ insertSorted f x l ↔ y = x ∨ y ∈ l := by
  rw [(insertSorted_perm f x l).mem_iff, List.mem_cons]

theorem mem_jsSort {α : Type} (f : α → α → Option Int) (y : α) (l : List α) :
    y ∈ jsSort f l ↔ y ∈ l :=
  (jsSort_perm f l).mem_iff

/-- Inserting into a sorted list keeps it sorted, when the comparator is total
and transitive on the elements involved. -/
theorem pairwise_insertSorted {α : Type} (f : α → α → Option Int) (x : α) (l : List α)
    (htot : ∀ y ∈ l, sortCompare f x y ≤ 0 ∨ sortCompare f y x ≤ 0)
    (htrans : ∀ y ∈ l, ∀ z ∈ l,
      sortCompare f x y ≤ 0 → sortCompare f y z ≤ 0 → sortCompare f x z ≤ 0)
    (h : l.Pairwise (fun a b => sortCompare f a b ≤ 0)) :
    (insertSorted f x l).Pairwise (fun a b => sortCompare f a b ≤ 0) := by
  induction l with
  | nil => simp [insertSorted]
  | cons y ys ih =>
    obtain ⟨hy, hys⟩ := List.pairwise_cons.mp h
    by_cases hxy : sortCompare f x y ≤ 0
    · simp only [insertSorted, hxy, if_true]
      refine List.pairwise_cons.mpr ⟨?_, h⟩
      intro z hz
      rcases List.mem_cons.mp hz with rfl | hz
      · exact hxy
      · exact htrans y (List.mem_cons_self _ _) z (List.mem_cons_of_mem _ hz) hxy (hy z hz)
    · simp only [insertSorted, hxy, if_false]
      refine List.pairwise_cons.mpr ⟨?_, ?_⟩
      · intro z hz
        rcases (mem_insertSorted f x z ys).mp hz with rfl | hz
        · exact (htot y (List.mem_cons_self _ _)).resolve_left hxy
        · exact hy z hz
      · exact ih (fun z hz => htot z (List.mem_cons_of_mem _ hz))
          (fun z hz w hw => htrans z (List.mem_cons_of_mem _ hz) w (List.mem_cons_of_mem _ hw))
          hys

/-- The result of the sort is ordered, when the comparator is total and
transitive on the elements of the list. -/
theorem pairwise_jsSort {α : Type} (f : α → α → Option Int) (l : List α)
    (htot : ∀ a ∈ l, ∀ b ∈ l, sortCompare f a b ≤ 0 ∨ sortCompare f b a ≤ 0)
    (htrans : ∀ a ∈ l, ∀ b ∈ l, ∀ c ∈ l,
      sortCompare f a b ≤ 0 → sortCompare f b c ≤ 0 → sortCompare f a c ≤ 0) :
    (jsSort f l).Pairwise (fun a b => sortCompare f a b ≤ 0) := by
  induction l with
  | nil => simp [jsSort]
  | cons x xs ih =>
    simp only [jsSort]
    apply pairwise_insertSorted
    · intro y hy
      exact htot x (List.mem_cons_self _ _) y (List.mem_cons_of_mem _ ((mem_jsSort f y xs).mp hy))
    · intro y hy z hz
      exact htrans x (List.mem_cons_self _ _) y (List.mem_cons_of_mem _ ((mem_jsSort f y xs).mp hy))
        z (List.mem_cons_of_mem _ ((mem_jsSort f z xs).mp hz))
    · exact ih (fun a ha b hb => htot a (List.mem_cons_of_mem _ ha) b (List.mem_cons_of_mem _ hb))
        (fun a ha b hb c hc => htrans a (List.mem_cons_of_mem _ ha) b (List.mem_cons_of_mem _ hb)
          c (List.mem_cons_of_mem _ hc))

theorem sublist_insertSorted {α : Type} (f : α → α → Option Int) (x : α) (l : List α) :
    l.Sublist (insertSorted f x l) := by
  induction l with
  | nil => simp
  | cons y ys ih =>
    by_cases hxy : sortCompare f x y ≤ 0
    · simp only [insertSorted, hxy, if_true]
      exact List.sublist_cons_self _ _
    · simp only [insertSorted, hxy, if_false]
      exact ih.cons₂ y

theorem cons_sublist_insertSorted {α : Type} (f : α → α → Option Int) (x : α)
    (c l : List α) (hc : c.Sublist l) (hx : ∀ y ∈ c, sortCompare f x y ≤ 0) :
    (x :: c).Sublist (insertSorted f x l) := by
  induction l generalizing c with
  | nil =>
    have : c = [] := List.sublist_nil.mp hc
    subst this
    simp [insertSorted]
  | cons y ys ih =>
    by_cases hxy : sortCompare f x y ≤ 0
    · simp only [insertSorted, hxy, if_true]
      exact hc.cons₂ x
    · simp only [insertSorted, hxy, if_false]
      cases hc with
      | cons _ h => exact (ih c h hx).cons y
      | cons₂ _ h => exact absurd (hx y (List.mem_cons_self _ _)) hxy

/-- Stability: a sublist of the input that is already ordered is a sublist of
the sorted output, for any comparator. -/
theorem sublist_jsSort {α : Type} (f : α → α → Option Int) (c l : List α)
    (hc : c.Sublist l) (hr : c.Pairwise (fun a b => sortCompare f a b ≤ 0)) :
    c.Sublist (jsSort f l) := by
  induction l generalizing c with
  | nil => simpa [jsSort] using hc
  | cons x xs ih =>
    simp only [jsSort]
    cases hc with
    | cons _ h => exact (ih c h hr).trans (sublist_insertSorted f x _)
    | cons₂ _ h =>
      obtain ⟨hx, hp⟩ := List.pairwise_cons.mp hr
      exact cons_sublist_insertSorted f x _ _ (ih _ h hp) hx

theorem filter_insertSorted_neg {α : Type} (f : α → α → Option Int) (p : α → Bool) (x : α)
    (l : List α) (hx : p x = false) :
    (insertSorted f x l).filter p = l.filter p := by
  induction l with
  | nil => simp [insertSorted, hx]
  | cons y ys ih =>
    by_cases hxy : sortCompare f x y ≤ 0
    · simp [insertSorted, hxy, hx]
    · simp only [insertSorted, hxy, if_false, List.filter_cons, ih]

theorem filter_insertSorted_pos {α : Type} (f : α → α → Option Int) (p : α → Bool) (x : α)
    (l : List α) (hx : p x = true) (hl : ∀ y ∈ l, p y = true → sortCompare f x y ≤ 0) :
    (insertSorted f x l).filter p = x :: l.filter p := by
  induction l with
  | nil => simp [insertSorted, hx]
  | cons y ys ih =>
    by_cases hxy : sortCompare f x y ≤ 0
    · simp [insertSorted, hxy, hx]
    · have hy : p y = false := by
        cases hpy : p y with
        | false => rfl
        | true => exact absurd (hl y (List.mem_cons_self _ _) hpy) hxy
      simp only [insertSorted, hxy, if_false, List.filter_cons, hy]
      simpa using ih (fun z hz => hl z (List.mem_cons_of_mem _ hz))

/-- Stability, in full: the elements of a class whose members compare `≤` to
one another come out in exactly the order they went in. -/
theorem filter_jsSort {α : Type} (f : α → α → Option Int) (p : α → Bool) (l : List α)
    (h : ∀ a ∈ l, ∀ b ∈ l, p a = true → p b = true → sortCompare f a b ≤ 0) :
    (jsSort f l).filter p = l.filter p := by
  induction l with
  | nil => simp [jsSort]
  | cons x xs ih =>
    have ih1 := ih (fun a ha b hb => h a (List.mem_cons_of_mem _ ha) b (List.mem_cons_of_mem _ hb))
    simp only [jsSort]
    cases hx : p x with
    | false =>
      rw [filter_insertSorted_neg f p x _ hx, ih1]
      simp [List.filter_cons, hx]
    | true =>
      rw [filter_insertSorted_pos f p x _ hx, ih1]
      · simp [List.filter_cons, hx]
      · intro y hy hpy
        exact h x (List.mem_cons_self _ _) y (List.mem_cons_of_mem _ ((mem_jsSort f y xs).mp hy))
          hx hpy

/-- Two orderings of the same elements coincide when the order relation is
antisymmetric on those elements. -/
theorem eq_of_perm_of_pairwise {α : Type} (r : α → α → Prop) :
    ∀ (l₁ l₂ : List α), l₁.Perm l₂ → (∀ a ∈ l₁, ∀ b ∈ l₁, r a b → r b a → a = b) →
      l₁.Pairwise r → l₂.Pairwise r → l₁ = l₂
  | [], l₂, hp, _, _, _ => (List.Perm.nil_eq hp)
  | a :: t₁, [], hp, _, _, _ => absurd hp.symm.nil_eq (by simp)
  | a :: t₁, b :: t₂, hp, hanti, h₁, h₂ => by
    obtain ⟨ha, ht₁⟩ := List.pairwise_cons.mp h₁
    obtain ⟨hb, ht₂⟩ := List.pairwise_cons.mp h₂
    have hab : a = b := by
      have hbm : b ∈ a :: t₁ := hp.symm.subset (List.mem_cons_self _ _)
      have ham : a ∈ b :: t₂ := hp.subset (List.mem_cons_self _ _)
      rcases List.mem_cons.mp hbm with hba | hbt
      · exact hba.symm
      · rcases List.mem_cons.mp ham with hab | hat
        · exact hab
        · exact hanti a (List.mem_cons_self _ _) b hbm (ha b hbt) (hb a hat)
    subst hab
    have hp1 : t₁.Perm t₂ := List.Perm.cons_inv hp
    rw [eq_of_perm_of_pairwise r t₁ t₂ hp1
      (fun x hx y hy => hanti x (List.mem_cons_of_mem _ hx) y (List.mem_cons_of_mem _ hy)) ht₁ ht₂]

/-! ## Consistent comparators -/

theorem ConsistentComparator.refl_eq {α : Type} {cmp : α → α → Int}
    (hc : ConsistentComparator cmp) (a : α) : cmp a a = 0 := by
  have h := hc.antisymm a a
  omega

theorem ConsistentComparator.total {α : Type} {cmp : α → α → Int}
    (hc : ConsistentComparator cmp) (a b : α) : cmp a b ≤ 0 ∨ cmp b a ≤ 0 := by
  have h := hc.antisymm b a
  omega

theorem ConsistentComparator.eq_symm {α : Type} {cmp : α → α → Int}
    (hc : ConsistentComparator cmp) {a b : α} (h : cmp a b = 0) : cmp b a = 0 := by
  have h1 := hc.antisymm a b
  have h2 := hc.antisymm b a
  omega

theorem ConsistentComparator.ge_of_le {α : Type} {cmp : α → α → Int}
    (hc : ConsistentComparator cmp) {a b : α} (h : cmp a b ≤ 0) : 0 ≤ cmp b a := by
  have h1 := hc.antisymm b a
  omega

theorem ConsistentComparator.eq_trans {α : Type} {cmp : α → α → Int}
    (hc : ConsistentComparator cmp) {a b c : α} (h1 : cmp a b = 0) (h2 : cmp b c = 0) :
    cmp a c = 0 := by
  have h3 := hc.trans a b c (by omega) (by omega)
  have h4 := hc.trans c b a (by have := hc.eq_symm h2; omega) (by have := hc.eq_symm h1; omega)
  have h5 := hc.ge_of_le h4
  omega

theorem ConsistentComparator.flip {α : Type} {cmp : α → α → Int}
    (hc : ConsistentComparator cmp) : ConsistentComparator (fun a b => cmp b a) where
  antisymm a b := by
    have h1 := hc.antisymm a b
    have h2 := hc.antisymm b a
    constructor <;> intro h <;> omega
  trans a b c h1 h2 := hc.trans c b a h2 h1

theorem consistent_sub : ConsistentComparator (fun (x y : Int) => x - y) where
  antisymm a b := by constructor <;> intro h <;> omega
  trans a b c h1 h2 := by omega

/-- The sorted output is ordered by the key comparison, when on the elements of
the list the comparator is a consistent comparison of keys. -/
theorem pairwise_jsSort_of_key {α K : Type} (f : α → α → Option Int) (key : α → K)
    (cmp : K → K → Int) (hc : ConsistentComparator cmp) (l : List α)
    (hf : ∀ a ∈ l, ∀ b ∈ l, sortCompare f a b = cmp (key a) (key b)) :
    (jsSort f l).Pairwise (fun a b => cmp (key a) (key b) ≤ 0) := by
  have h := pairwise_jsSort f l
    (fun a ha b hb => by rw [hf a ha b hb, hf b hb a ha]; exact hc.total _ _)
    (fun a ha b hb c hc1 => by
      rw [hf a ha b hb, hf b hb c hc1, hf a ha c hc1]; exact hc.trans _ _ _)
  refine h.imp_of_mem ?_
  intro a b ha hb hab
  rw [← hf a ((mem_jsSort f a l).mp ha) b ((mem_jsSort f b l).mp hb)]
  exact hab

/-- The elements whose key compares equal to `k` keep their input order. -/
theorem filter_jsSort_of_key {α K : Type} (f : α → α → Option Int) (key : α → K)
    (cmp : K → K → Int) (hc : ConsistentComparator cmp) (l : List α)
    (hf : ∀ a ∈ l, ∀ b ∈ l, sortCompare f a b = cmp (key a) (key b)) (k : K) :
    (jsSort f l).filter (fun s => decide (cmp k (key s) = 0)) =
      l.filter (fun s => decide (cmp k (key s) = 0)) := by
  apply filter_jsSort
  intro a ha b hb hpa hpb
  rw [hf a ha b hb]
  have h1 : cmp k (key a) = 0 := by simpa using hpa
  have h2 : cmp k (key b) = 0 := by simpa using hpb
  have := hc.eq_trans (hc.eq_symm h1) h2
  omega

/-! ## `sortedData` -/

theorem sortCompare_title_asc (rt : Runtime) (a b : Show) :
    sortCompare (compareShows rt "title" "asc") a b = rt.localeCompare a.title b.title := by
  simp [sortCompare, compareShows]

theorem sortCompare_title_desc (rt : Runtime) (a b : Show) :
    sortCompare (compareShows rt "title" "desc") a b = rt.localeCompare b.title a.title := by
  simp [sortCompare, compareShows]

theorem sortCompare_date_asc (rt : Runtime) (a b : Show)
    (ha : (rt.dateValue a.updated).isSome = true) (hb : (rt.dateValue b.updated).isSome = true) :
    sortCompare (compareShows rt "date" "asc") a b =
      (rt.dateValue a.updated).getD 0 - (rt.dateValue b.updated).getD 0 := by
  obtain ⟨ta, hta⟩ := Option.isSome_iff_exists.mp ha
  obtain ⟨tb, htb⟩ := Option.isSome_iff_exists.mp hb
  simp [sortCompare, compareShows, dateDiff, hta, htb]

theorem sortCompare_date_desc (rt : Runtime) (a b : Show)
    (ha : (rt.dateValue a.updated).isSome = true) (hb : (rt.dateValue b.updated).isSome = true) :
    sortCompare (compareShows rt "date" "desc") a b =
      (rt.dateValue b.updated).getD 0 - (rt.dateValue a.updated).getD 0 := by
  obtain ⟨ta, hta⟩ := Option.isSome_iff_exists.mp ha
  obtain ⟨tb, htb⟩ := Option.isSome_iff_exists.mp hb
  simp [sortCompare, compareShows, dateDiff, hta, htb]

theorem chronological_iff (rt : Runtime) (a b : Show)
    (ha : (rt.dateValue a.updated).isSome = true) (hb : (rt.dateValue b.updated).isSome = true) :
    chronological rt a b ↔
      (rt.dateValue a.updated).getD 0 - (rt.dateValue b.updated).getD 0 ≤ 0 := by
  obtain ⟨ta, hta⟩ := Option.isSome_iff_exists.mp ha
  obtain ⟨tb, htb⟩ := Option.isSome_iff_exists.mp hb
  simp [chronological, hta, htb]

/-- Shows whose keys compare equal are never swapped by the comparator. -/
theorem sortCompare_le_of_sameKey (rt : Runtime) (hcmp : ConsistentComparator rt.localeCompare)
    (sortType sortOrder : String) (a b : Show) (h : sameKey rt sortType a b) :
    sortCompare (compareShows rt sortType sortOrder) a b ≤ 0 := by
  unfold sameKey at h
  by_cases ht : sortType = "title"
  · rw [if_pos ht] at h
    by_cases ho : sortOrder = "asc"
    · simp [sortCompare, compareShows, ht, ho, h]
    · simp [sortCompare, compareShows, ht, ho, hcmp.eq_symm h]
  · rw [if_neg ht] at h
    by_cases hd : sortType = "date"
    · cases hb : rt.dateValue b.updated with
      | none => simp [sortCompare, compareShows, ht, hd, h, hb, dateDiff]
      | some t => by_cases ho : sortOrder = "asc" <;>
          simp [sortCompare, compareShows, hd, ho, h, hb, dateDiff]
    · simp [sortCompare, compareShows, ht, hd]

theorem sameKey_trans (rt : Runtime) (hcmp : ConsistentComparator rt.localeCompare)
    (sortType : String) (x a b : Show) (h1 : sameKey rt sortType x a)
    (h2 : sameKey rt sortType x b) : sameKey rt sortType a b := by
  unfold sameKey at *
  by_cases ht : sortType = "title"
  · rw [if_pos ht] at h1 h2 ⊢
    exact hcmp.eq_trans (hcmp.eq_symm h1) h2
  · rw [if_neg ht] at h1 h2 ⊢
    exact h1.symm.trans h2

/-- The order of the output of `sortedData`, in each of the four modes. -/
theorem sortedData_pairwise (rt : Runtime) (data : List Show) (sortType sortOrder : String)
    (hType : sortType = "title" ∨ sortType = "date")
    (hOrder : sortOrder = "asc" ∨ sortOrder = "desc")
    (hcmp : ConsistentComparator rt.localeCompare)
    (hdates : sortType = "date" → ∀ s ∈ data, (rt.dateValue s.updated).isSome = true) :
    (sortedData rt data sortType sortOrder).Pairwise (inOrder rt sortType sortOrder) := by
  rcases hType with rfl | rfl
  · rcases hOrder with rfl | rfl
    · have h := pairwise_jsSort_of_key (compareShows rt "title" "asc") Show.title
        rt.localeCompare hcmp data (fun a _ b _ => sortCompare_title_asc rt a b)
      refine h.imp ?_
      intro a b hab
      simpa [inOrder, keyLE] using hab
    · have h := pairwise_jsSort_of_key (compareShows rt "title" "desc") Show.title
        (fun x y => rt.localeCompare y x) hcmp.flip data
        (fun a _ b _ => sortCompare_title_desc rt a b)
      refine h.imp ?_
      intro a b hab
      simpa [inOrder, keyLE] using hab
  · have hv := hdates rfl
    rcases hOrder with rfl | rfl
    · have h := pairwise_jsSort_of_key (compareShows rt "date" "asc")
        (fun s => (rt.dateValue s.updated).getD 0) (fun (x y : Int) => x - y) consistent_sub data
        (fun a ha b hb => sortCompare_date_asc rt a b (hv a ha) (hv b hb))
      refine h.imp_of_mem ?_
      intro a b ha hb hab
      have ha1 := hv a ((mem_jsSort _ a data).mp ha)
      have hb1 := hv b ((mem_jsSort _ b data).mp hb)
      simp only [inOrder, keyLE]
      simpa using (chronological_iff rt a b ha1 hb1).mpr hab
    · have h := pairwise_jsSort_of_key (compareShows rt "date" "desc")
        (fun s => (rt.dateValue s.updated).getD 0) (fun (x y : Int) => y - x)
        consistent_sub.flip data
        (fun a ha b hb => sortCompare_date_desc rt a b (hv a ha) (hv b hb))
      refine h.imp_of_mem ?_
      intro a b ha hb hab
      have ha1 := hv a ((mem_jsSort _ a data).mp ha)
      have hb1 := hv b ((mem_jsSort _ b data).mp hb)
      simp only [inOrder, keyLE]
      simpa using (chronological_iff rt b a hb1 ha1).mpr hab

/-! ## The sample runtime -/

theorem compareCodePoints_antisymm :
    ∀ a b : List Char, compareCodePoints a b < 0 ↔ 0 < compareCodePoints b a
  | [], [] => by simp [compareCodePoints]
  | [], _ :: _ => by simp [compareCodePoints]
  | _ :: _, [] => by simp [compareCodePoints]
  | a :: as, b :: bs => by
    have ih := compareCodePoints_antisymm as bs
    simp only [compareCodePoints]
    split_ifs <;> omega

theorem compareCodePoints_trans :
    ∀ a b c : List Char, compareCodePoints a b ≤ 0 → compareCodePoints b c ≤ 0 →
      compareCodePoints a c ≤ 0
  | [], _, [] => by simp [compareCodePoints]
  | [], _, _ :: _ => by simp [compareCodePoints]
  | _ :: _, [], _ => by simp [compareCodePoints]
  | _ :: _, _ :: _, [] => by simp [compareCodePoints]
  | a :: as, b :: bs, c :: cs => by
    have ih := compareCodePoints_trans as bs cs
    simp only [compareCodePoints]
    split_ifs <;> omega

theorem sampleRuntime_consistent : ConsistentComparator sampleRuntime.localeCompare where
  antisymm _ _ := compareCodePoints_antisymm _ _
  trans _ _ _ := compareCodePoints_trans _ _ _

/-! ## Properties of `sortedData` -/

/-- C2 as stated fails: when an `updated` field is not a date the comparator
returns `NaN` for every pair with that show, and the sort leaves the list
[A (2021), C (no date), B (2020)] as it is in date/asc mode: its consecutive
elements are not in chronological order, and 2021 stands before 2020. -/
theorem sortedData_undated_counterexample :
    sortedData sampleRuntime [showA, showUndated, showB] "date" "asc" =
      [showA, showUndated, showB] ∧
    ¬ (sortedData sampleRuntime [showA, showUndated, showB] "date" "asc").Chain'
        (inOrder sampleRuntime "date" "asc") ∧
    ¬ inOrder sampleRuntime "date" "asc" showA showB := by
  have h0 : sortedData sampleRuntime [showA, showUndated, showB] "date" "asc" =
      [showA, showUndated, showB] := by decide
  refine ⟨h0, ?_, by decide⟩
  intro h
  rw [h0] at h
  have h1 : inOrder sampleRuntime "date" "asc" showA showUndated := (List.chain'_cons.mp h).1
  exact absurd h1 (by decide)

/-- C2, amended: for `sortType` in {title, date} and `sortOrder` in {asc, desc},
and, when `sortType` is date, for data in which every `updated` field is a
date, `sortedData` is a stable sort of `data`: a permutation of `data`, whose
consecutive elements (and in fact any two elements) are in order under the
selected key and direction, and in which shows with equal keys keep their
relative order from `data`.  The title comparison is the engine's
`localeCompare`, a consistent comparator. -/
theorem sortedData_stable_sort (rt : Runtime) (data : List Show) (sortType sortOrder : String)
    (hType : sortType = "title" ∨ sortType = "date")
    (hOrder : sortOrder = "asc" ∨ sortOrder = "desc")
    (hcmp : ConsistentComparator rt.localeCompare)
    (hdates : sortType = "date" → ∀ s ∈ data, (rt.dateValue s.updated).isSome = true) :
    (sortedData rt data sortType sortOrder).Perm data ∧
    (sortedData rt data sortType sortOrder).Chain' (inOrder rt sortType sortOrder) ∧
    (sortedData rt data sortType sortOrder).Pairwise (inOrder rt sortType sortOrder) ∧
    (∀ a b, sameKey rt sortType a b → [a, b].Sublist data →
      [a, b].Sublist (sortedData rt data sortType sortOrder)) ∧
    (∀ x, (sortedData rt data sortType sortOrder).filter
        (fun s => decide (sameKey rt sortType x s)) =
      data.filter (fun s => decide (sameKey rt sortType x s))) := by
  have hp := sortedData_pairwise rt data sortType sortOrder hType hOrder hcmp hdates
  refine ⟨jsSort_perm _ data, hp.chain', hp, ?_, ?_⟩
  · intro a b hab hsub
    exact sublist_jsSort _ _ _ hsub
      (List.pairwise_pair.mpr (sortCompare_le_of_sameKey rt hcmp sortType sortOrder a b hab))
  · intro x
    apply filter_jsSort
    intro a _ b _ hpa hpb
    exact sortCompare_le_of_sameKey rt hcmp sortType sortOrder a b
      (sameKey_trans rt hcmp sortType x a b (by simpa using hpa) (by simpa using hpb))

/-- C2, amended, scenario: over the two shows B (updated 2020-01-01) and A
(updated 2021-01-01) the title order is [A, B] and the date order is [B, A]; the
general theorem applies to the date mode of this input. -/
theorem sortedData_stable_sort_witness :
    sortedData sampleRuntime [showB, showA] "title" "asc" = [showA, showB] ∧
    sortedData sampleRuntime [showB, showA] "date" "asc" = [showB, showA] ∧
    (sortedData sampleRuntime [showB, showA] "date" "asc").Perm [showB, showA] ∧
    (sortedData sampleRuntime [showB, showA] "date" "asc").Pairwise
      (inOrder sampleRuntime "date" "asc") :=
  have h := sortedData_stable_sort sampleRuntime [showB, showA] "date" "asc"
    (Or.inr rfl) (Or.inl rfl) sampleRuntime_consistent (by decide)
  ⟨by decide, by decide, h.1, h.2.2.1⟩

/-- C3 as stated fails: two shows whose titles are different strings that the
title comparison treats as equal (canonically equivalent spellings of the same
letter) keep their input order in both directions, so the descending result is
not the reverse of the ascending one. -/
theorem sortedData_desc_reverse_counterexample :
    ¬ ∀ (rt : Runtime) (data : List Show), ConsistentComparator rt.localeCompare →
        (data.map Show.title).Nodup →
        sortedData rt data "title" "desc" = (sortedData rt data "title" "asc").reverse := by
  intro h
  have h1 := h sampleRuntime [showComposed, showDecomposed] sampleRuntime_consistent (by decide)
  revert h1
  decide

/-- C3, amended: when no two shows of `data` have titles that compare equal
under the title comparison, the descending title sort is exactly the reverse of
the ascending title sort. -/
theorem sortedData_desc_eq_reverse_asc (rt : Runtime) (data : List Show)
    (hcmp : ConsistentComparator rt.localeCompare)
    (hdistinct : data.Pairwise (fun a b => rt.localeCompare a.title b.title ≠ 0)) :
    sortedData rt data "title" "desc" = (sortedData rt data "title" "asc").reverse := by
  have hasc := sortedData_pairwise rt data "title" "asc" (Or.inl rfl) (Or.inl rfl) hcmp
    (fun h => absurd h (by decide))
  have hdesc := sortedData_pairwise rt data "title" "desc" (Or.inl rfl) (Or.inr rfl) hcmp
    (fun h => absurd h (by decide))
  have hsym : Symmetric (fun a b : Show => rt.localeCompare a.title b.title ≠ 0) :=
    fun a b hab hba => hab (hcmp.eq_symm hba)
  apply eq_of_perm_of_pairwise (fun a b : Show => rt.localeCompare b.title a.title ≤ 0)
  · exact (jsSort_perm _ data).trans
      ((jsSort_perm (compareShows rt "title" "asc") data).symm.trans
        (List.reverse_perm _).symm)
  · intro a ha b hb hab hba
    by_contra hne
    have ha1 : a ∈ data := (mem_jsSort _ a data).mp ha
    have hb1 : b ∈ data := (mem_jsSort _ b data).mp hb
    have hnz := hdistinct.forall hsym ha1 hb1 hne
    have := hcmp.ge_of_le hab
    exact hnz (by omega)
  · refine hdesc.imp ?_
    intro a b hab
    simpa [inOrder, keyLE] using hab
  · rw [List.pairwise_reverse]
    refine hasc.imp ?_
    intro a b hab
    simpa [inOrder, keyLE] using hab

/-- C3, amended, on the two-show scenario. -/
theorem sortedData_desc_eq_reverse_asc_witness :
    sortedData sampleRuntime [showB, showA] "title" "desc" =
      (sortedData sampleRuntime [showB, showA] "title" "asc").reverse :=
  sortedData_desc_eq_reverse_asc sampleRuntime [showB, showA] sampleRuntime_consistent
    (by decide)

/-! ## Properties of `filteredData` -/

theorem includesChars_iff (s search : List Char) :
    includesChars s search = true ↔ search <:+: s := by
  induction s with
  | nil =>
    cases search <;> simp [includesChars, List.isPrefixOf]
  | cons c s ih =>
    rw [includesChars, Bool.or_eq_true, ih, List.infix_cons_iff, List.isPrefixOf_iff_prefix]

/-- The filter callback decides the match condition of the specification. -/
theorem showMatches_iff (rt : Runtime) (filterText selectedGenre : String) (s : Show) :
    showMatches rt filterText selectedGenre s = true ↔
      matchesSpec rt filterText selectedGenre s := by
  unfold showMatches matchesSpec includes
  simp only [Bool.and_eq_true, includesChars_iff]
  apply and_congr Iff.rfl
  by_cases hg : selectedGenre = ""
  · simp [hg]
  · cases hn : rt.toNumber selectedGenre with
    | none => simp [hg]
    | some n => simp [hg]

/-- C1: `filteredData` is exactly the sub-list of `sortedData` made of the
shows whose lower-cased title contains the lower-cased filter text and, when a
genre is selected, whose genres contain the selected code as a number; with no
genre selected only the title condition applies.  Nothing is added, reordered
or duplicated.  Scenario: over the shows B (genre 1) and A (genre 2), filter
text "a" and genre "2" leave exactly [A]. -/
theorem filteredData_spec (rt : Runtime) (data : List Show)
    (sortType sortOrder filterText selectedGenre : String) :
    filteredData rt data sortType sortOrder filterText selectedGenre =
      (sortedData rt data sortType sortOrder).filter
        (fun s => decide (matchesSpec rt filterText selectedGenre s)) ∧
    (filteredData rt data sortType sortOrder filterText selectedGenre).Sublist
      (sortedData rt data sortType sortOrder) ∧
    (∀ s, s ∈ filteredData rt data sortType sortOrder filterText selectedGenre ↔
      s ∈ sortedData rt data sortType sortOrder ∧ matchesSpec rt filterText selectedGenre s) ∧
    (∀ s, (filteredData rt data sortType sortOrder filterText selectedGenre).count s =
      if matchesSpec rt filterText selectedGenre s then
        (sortedData rt data sortType sortOrder).count s else 0) ∧
    (∀ s, matchesSpec rt filterText "" s ↔
      (rt.toLowerCase filterText).data <:+: (rt.toLowerCase s.title).data) ∧
    (rt.toLowerCase "a" = "a" → rt.toLowerCase "A" = "a" → rt.toLowerCase "B" = "b" →
      rt.toNumber "2" = some 2 →
      filteredData rt [showB, showA] sortType sortOrder "a" "2" = [showA]) := by
  have hfun : showMatches rt filterText selectedGenre =
      fun s => decide (matchesSpec rt filterText selectedGenre s) := by
    funext s
    rw [Bool.eq_iff_iff, showMatches_iff]
    simp
  refine ⟨?_, ?_, ?_, ?_, ?_, ?_⟩
  · rw [filteredData, hfun]
  · exact List.filter_sublist _
  · intro s
    rw [filteredData, List.mem_filter, showMatches_iff]
  · intro s
    rw [filteredData]
    by_cases hm : matchesSpec rt filterText selectedGenre s
    · rw [if_pos hm, List.count_filter ((showMatches_iff rt filterText selectedGenre s).mpr hm)]
    · rw [if_neg hm, List.count_eq_zero]
      intro hmem
      exact hm ((showMatches_iff rt filterText selectedGenre s).mp (List.mem_filter.mp hmem).2)
  · intro s
    simp [matchesSpec]
  · intro h1 h2 h3 h4
    have hB : showMatches rt "a" "2" showB = false := by
      rw [Bool.eq_false_iff, Ne, showMatches_iff]
      simp [matchesSpec, showB, h4]
    have hA : showMatches rt "a" "2" showA = true := by
      rw [showMatches_iff]
      simp [matchesSpec, showA, h1, h2, h4]
    simp only [filteredData, sortedData, jsSort, insertSorted]
    split_ifs <;> simp [List.filter_cons, hA, hB]

/-- C1 on the scenario of the specification, with the sample runtime. -/
theorem filteredData_spec_witness :
    filteredData sampleRuntime [showB, showA] "title" "asc" "a" "2" = [showA] :=
  (filteredData_spec sampleRuntime [showB, showA] "title" "asc" "a" "2").2.2.2.2.2
    (by decide) (by decide) (by decide) (by decide)

/-! ## Sorting the favourites -/

/-- C9: `sortFavoritesByTitleAZ` replaces `favorites` by a permutation of itself
with titles in non-decreasing order under the title comparison, and
`sortFavoritesByTitleZA` by a permutation with titles in non-increasing order;
no episode is added or dropped. -/
theorem sortFavorites_sorted_perm (rt : Runtime) (favorites : List Episode)
    (hcmp : ConsistentComparator rt.localeCompare) :
    (sortFavoritesByTitleAZ rt favorites).Perm favorites ∧
    (sortFavoritesByTitleAZ rt favorites).Pairwise
      (fun a b => rt.localeCompare a.title b.title ≤ 0) ∧
    (sortFavoritesByTitleZA rt favorites).Perm favorites ∧
    (sortFavoritesByTitleZA rt favorites).Pairwise
      (fun a b => 0 ≤ rt.localeCompare a.title b.title) ∧
    (sortFavoritesByTitleAZ rt favorites).length = favorites.length ∧
    (sortFavoritesByTitleZA rt favorites).length = favorites.length := by
  refine ⟨jsSort_perm _ _, ?_, jsSort_perm _ _, ?_, (jsSort_perm _ _).length_eq,
    (jsSort_perm _ _).length_eq⟩
  · exact pairwise_jsSort_of_key _ Episode.title rt.localeCompare hcmp favorites
      (fun a _ b _ => by simp [sortCompare])
  · have h := pairwise_jsSort_of_key (fun a b : Episode => some (rt.localeCompare b.title a.title))
      Episode.title (fun x y => rt.localeCompare y x) hcmp.flip favorites
      (fun a _ b _ => by simp [sortCompare])
    refine h.imp ?_
    intro a b hab
    exact hcmp.ge_of_le hab

/-- C9 on two favourites: "Pilot" then "Finale" become [Finale, Pilot] for A-Z
and stay [Pilot, Finale] for Z-A. -/
theorem sortFavorites_sorted_perm_witness :
    sortFavoritesByTitleAZ sampleRuntime [episode1, episode2] = [episode2, episode1] ∧
    sortFavoritesByTitleZA sampleRuntime [episode1, episode2] = [episode1, episode2] ∧
    (sortFavoritesByTitleAZ sampleRuntime [episode1, episode2]).Perm [episode1, episode2] :=
  ⟨by decide, by decide,
    (sortFavorites_sorted_perm sampleRuntime [episode1, episode2] sampleRuntime_consistent).1⟩

/-! ## Favourites -/

theorem toggleFavorite_of_not_mem (favorites : List Episode) (episode : Episode)
    (h : episode ∉ favorites) : toggleFavorite favorites episode = favorites ++ [episode] := by
  simp [toggleFavorite, h]

theorem toggleFavorite_of_mem (favorites : List Episode) (episode : Episode)
    (h : episode ∈ favorites) :
    toggleFavorite favorites episode = favorites.filter (fun fav => fav != episode) := by
  simp [toggleFavorite, h]

theorem filter_ne_of_not_mem (favorites : List Episode) (episode : Episode)
    (h : episode ∉ favorites) : favorites.filter (fun fav => fav != episode) = favorites := by
  rw [List.filter_eq_self]
  intro a ha
  simp only [bne_iff_ne, ne_eq]
  intro hae
  exact h (hae ▸ ha)

theorem not_mem_filter_ne (favorites : List Episode) (episode : Episode) :
    episode ∉ favorites.filter (fun fav => fav != episode) := by
  simp [List.mem_filter]

/-- Two calls of `toggleFavorite` with an episode that is present, the second
on the result of the first. -/
theorem toggleFavorite_twice (favorites : List Episode) (episode : Episode)
    (h : episode ∈ favorites) :
    toggleFavorite (toggleFavorite favorites episode) episode =
      favorites.filter (fun fav => fav != episode) ++ [episode] := by
  rw [toggleFavorite_of_mem favorites episode h,
    toggleFavorite_of_not_mem _ episode (not_mem_filter_ne favorites episode)]

/-- C4 as stated fails: with favourites [episode1, episode2], toggling
`episode1` twice gives [episode2, episode1], not the original list. -/
theorem toggleFavorite_twice_counterexample :
    toggleFavorite (toggleFavorite [episode1, episode2] episode1) episode1 =
        [episode2, episode1] ∧
      toggleFavorite (toggleFavorite [episode1, episode2] episode1) episode1 ≠
        [episode1, episode2] := by
  decide

/-- C4, amended: two successive calls of `toggleFavorite` with the same episode
give back the original list when the episode was absent; when it was present
they give the original list with the occurrences of the episode removed and the
episode appended at the end.  In both cases the result has the same members as
the original, and it is a permutation of the original when the episode occurred
at most once; the order of the original is not restored in general. -/
theorem toggleFavorite_twice_spec (favorites : List Episode) (episode : Episode) :
    (episode ∉ favorites →
      toggleFavorite (toggleFavorite favorites episode) episode = favorites) ∧
    (episode ∈ favorites →
      toggleFavorite (toggleFavorite favorites episode) episode =
        favorites.filter (fun fav => fav != episode) ++ [episode]) ∧
    (∀ x, x ∈ toggleFavorite (toggleFavorite favorites episode) episode ↔ x ∈ favorites) ∧
    (favorites.count episode ≤ 1 →
      (toggleFavorite (toggleFavorite favorites episode) episode).Perm favorites) := by
  have habsent : episode ∉ favorites →
      toggleFavorite (toggleFavorite favorites episode) episode = favorites := by
    intro h
    have h1 : episode ∈ favorites ++ [episode] := by simp
    rw [toggleFavorite_of_not_mem favorites episode h, toggleFavorite_of_mem _ episode h1,
      List.filter_append, filter_ne_of_not_mem favorites episode h]
    simp
  refine ⟨habsent, toggleFavorite_twice favorites episode, ?_, ?_⟩
  · intro x
    by_cases h : episode ∈ favorites
    case neg => rw [habsent h]
    rw [toggleFavorite_twice favorites episode h, List.mem_append, List.mem_filter,
      List.mem_singleton]
    constructor
    · rintro (⟨hx, _⟩ | rfl)
      · exact hx
      · exact h
    · intro hx
      by_cases hxe : x = episode
      · exact Or.inr hxe
      · exact Or.inl ⟨hx, by simpa using hxe⟩
  · intro hle
    by_cases h : episode ∈ favorites
    case neg => rw [habsent h]
    have hc : favorites.count episode = 1 := by
      have := List.count_pos_iff.mpr h
      omega
    rw [toggleFavorite_twice favorites episode h, List.perm_iff_count]
    intro x
    rw [List.count_append]
    by_cases hxe : x = episode
    · subst hxe
      rw [List.count_eq_zero.mpr (not_mem_filter_ne favorites x), hc]
      simp
    · have hcf : (favorites.filter (fun fav => fav != episode)).count x = favorites.count x :=
        List.count_filter (by simpa using hxe)
      rw [hcf]
      simp [List.count_singleton, hxe]

/-- C4, amended, on concrete favourites: an absent episode toggled twice leaves
[episode1] as it was; a present one moves to the end. -/
theorem toggleFavorite_twice_spec_witness :
    toggleFavorite (toggleFavorite [episode1] episode2) episode2 = [episode1] ∧
    toggleFavorite (toggleFavorite [episode1, episode2] episode1) episode1 =
      [episode2] ++ [episode1] :=
  ⟨(toggleFavorite_twice_spec [episode1] episode2).1 (by decide),
    (toggleFavorite_twice_spec [episode1, episode2] episode1).2.1 (by decide)⟩

/-- On a list that holds the same episode twice, which only the unused
`addEpisodeToFavorites` could build, `toggleFavorite` drops both occurrences. -/
theorem toggleFavorite_repeated :
    toggleFavorite [episode1, episode2, episode1] episode1 = [episode2] := by
  decide

/-- The removal done by `toggleFavorite`, on any list: a filter, which keeps
the other elements in their order and their number. -/
theorem toggleFavorite_filter (favorites : List Episode) (episode : Episode)
    (h : episode ∈ favorites) :
    toggleFavorite favorites episode = favorites.filter (fun fav => fav != episode) ∧
    (toggleFavorite favorites episode).Sublist favorites ∧
    episode ∉ toggleFavorite favorites episode ∧
    ∀ x, x ≠ episode → (toggleFavorite favorites episode).count x = favorites.count x := by
  rw [toggleFavorite_of_mem favorites episode h]
  refine ⟨rfl, List.filter_sublist _, not_mem_filter_ne favorites episode, ?_⟩
  intro x hx
  exact List.count_filter (by simpa using hx)

/-- On a list without a repeated episode the removal done by `toggleFavorite`
is the removal of the first matching occurrence. -/
theorem toggleFavorite_of_nodup (favorites : List Episode) (episode : Episode)
    (hd : favorites.Nodup) (h : episode ∈ favorites) :
    toggleFavorite favorites episode = favorites.erase episode := by
  rw [toggleFavorite_of_mem favorites episode h, hd.erase_eq_filter episode]

/-- The unused `addEpisodeToFavorites` is the one function that could repeat an
episode. -/
theorem addEpisodeToFavorites_repeats :
    ¬ (addEpisodeToFavorites [episode1] episode1).Nodup := by
  decide

theorem applyAction_nodup (rt : Runtime) (favorites : List Episode) (a : FavoritesAction)
    (h : favorites.Nodup) : (applyAction rt favorites a).Nodup := by
  cases a with
  | toggle episode =>
    simp only [applyAction]
    by_cases hmem : episode ∈ favorites
    · rw [toggleFavorite_of_mem favorites episode hmem]
      exact h.filter _
    · rw [toggleFavorite_of_not_mem favorites episode hmem]
      exact List.nodup_append.mpr ⟨h, List.nodup_singleton _, by
        intro x hx hx1
        rw [List.mem_singleton] at hx1
        exact hmem (hx1 ▸ hx)⟩
  | sortAZ => exact (jsSort_perm _ favorites).nodup_iff.mpr h
  | sortZA => exact (jsSort_perm _ favorites).nodup_iff.mpr h

theorem foldl_applyAction_nodup (rt : Runtime) (actions : List FavoritesAction) :
    ∀ favorites : List Episode, favorites.Nodup →
      (actions.foldl (applyAction rt) favorites).Nodup := by
  induction actions with
  | nil => intro favorites h; simpa using h
  | cons a rest ih =>
    intro favorites h
    simp only [List.foldl_cons]
    exact ih _ (applyAction_nodup rt favorites a h)

/-- C5: on every favourites list the component can hold (the lists reached from
the initial empty list by the wired handlers), `toggleFavorite` with an absent
episode yields the list with that episode appended at the end and nothing else
changed, and with a present episode yields the list with the first matching
occurrence removed and every other element kept in its original order. -/
theorem toggleFavorite_spec (rt : Runtime) (actions : List FavoritesAction)
    (episode : Episode) :
    (episode ∉ runActions rt actions →
      toggleFavorite (runActions rt actions) episode = runActions rt actions ++ [episode]) ∧
    (episode ∈ runActions rt actions →
      toggleFavorite (runActions rt actions) episode = (runActions rt actions).erase episode ∧
      ∃ l₁ l₂, episode ∉ l₁ ∧ runActions rt actions = l₁ ++ episode :: l₂ ∧
        toggleFavorite (runActions rt actions) episode = l₁ ++ l₂) := by
  have hd : (runActions rt actions).Nodup :=
    foldl_applyAction_nodup rt actions [] List.nodup_nil
  refine ⟨toggleFavorite_of_not_mem _ episode, ?_⟩
  intro h
  have he := toggleFavorite_of_nodup _ episode hd h
  refine ⟨he, ?_⟩
  obtain ⟨l₁, l₂, h1, h2, h3⟩ := List.exists_erase_eq h
  exact ⟨l₁, l₂, h1, h2, he.trans h3⟩

/-- C5 on favourites built by two clicks: toggling the absent `episode2` on
[episode1] appends it, toggling the present `episode1` on [episode1, episode2]
removes it and keeps `episode2`. -/
theorem toggleFavorite_spec_witness :
    toggleFavorite (runActions sampleRuntime [.toggle episode1]) episode2 =
      [episode1, episode2] ∧
    toggleFavorite (runActions sampleRuntime [.toggle episode1, .toggle episode2]) episode1 =
      [episode2] :=
  ⟨((toggleFavorite_spec sampleRuntime [.toggle episode1] episode2).1 (by decide)).trans
      (by decide),
    ((toggleFavorite_spec sampleRuntime [.toggle episode1, .toggle episode2] episode1).2
      (by decide)).1.trans (by decide)⟩

/-- C10: every favourites list reached from the initial empty list by a finite
sequence of `toggleFavorite`, `sortFavoritesByTitleAZ` and
`sortFavoritesByTitleZA` calls holds no episode more than once, so on it removing
the first matching reference and removing all matching references agree. -/
theorem runActions_nodup (rt : Runtime) (actions : List FavoritesAction) :
    (runActions rt actions).Nodup ∧
    (∀ episode, (runActions rt actions).count episode ≤ 1) ∧
    (∀ episode, (runActions rt actions).erase episode =
      (runActions rt actions).filter (fun fav => fav != episode)) := by
  have h : (runActions rt actions).Nodup :=
    foldl_applyAction_nodup rt actions [] List.nodup_nil
  exact ⟨h, fun episode => List.nodup_iff_count_le_one.mp h episode,
    fun episode => h.erase_eq_filter episode⟩

/-! ## Season visibility -/

theorem lookup_setProperty_self (obj : VisibilityMap) (key : String) (v : Bool) :
    (setProperty obj key v).lookup key = some v := by
  induction obj with
  | nil => simp [setProperty, List.lookup]
  | cons kv rest ih =>
    obtain ⟨k, b⟩ := kv
    by_cases hk : k = key
    · simp [setProperty, hk, List.lookup]
    · have hne : (key == k) = false := by simpa using fun h : key = k => hk h.symm
      simp only [setProperty, hk, if_false, List.lookup, hne, ih]

theorem lookup_setProperty_ne (obj : VisibilityMap) (key other : String) (v : Bool)
    (h : other ≠ key) : (setProperty obj key v).lookup other = obj.lookup other := by
  induction obj with
  | nil =>
    have hne : (other == key) = false := by simpa using h
    simp [setProperty, List.lookup, hne]
  | cons kv rest ih =>
    obtain ⟨k, b⟩ := kv
    by_cases hk : k = key
    · subst hk
      have hne : (other == k) = false := by simpa using h
      simp [setProperty, List.lookup, hne]
    · simp only [setProperty, hk, if_false, List.lookup, ih]

/-- What `toggleSeasonVisibility` does for every map and title: the entry of the
title becomes the negation of what reading it gave, every other entry is
unchanged; for a title that is not inherited from `Object.prototype` an absent
entry reads as false and becomes true. -/
theorem toggleSeasonVisibility_spec (prevState : VisibilityMap) (seasonTitle : String) :
    (toggleSeasonVisibility prevState seasonTitle).lookup seasonTitle =
      some (!toBoolean (getProperty prevState seasonTitle)) ∧
    (∀ other, other ≠ seasonTitle →
      (toggleSeasonVisibility prevState seasonTitle).lookup other = prevState.lookup other) ∧
    (∀ b, prevState.lookup seasonTitle = some b →
      (toggleSeasonVisibility prevState seasonTitle).lookup seasonTitle = some (!b)) ∧
    (seasonTitle ∉ objectPrototypeKeys → prevState.lookup seasonTitle = none →
      (toggleSeasonVisibility prevState seasonTitle).lookup seasonTitle = some true) := by
  refine ⟨lookup_setProperty_self _ _ _, ?_, ?_, ?_⟩
  · intro other h
    exact lookup_setProperty_ne _ _ _ _ h
  · intro b hb
    rw [toggleSeasonVisibility, lookup_setProperty_self]
    simp [getProperty, hb, toBoolean]
  · intro hk hb
    rw [toggleSeasonVisibility, lookup_setProperty_self]
    simp [getProperty, hb, hk, toBoolean]

/-- C6, failing input: on the initial empty map the title "constructor" has no
entry, yet reading it yields the inherited `Object` function, which is truthy;
the first toggle therefore stores false where the claim says true. -/
theorem toggleSeasonVisibility_constructor :
    List.lookup "constructor" ([] : VisibilityMap) = none ∧
    toggleSeasonVisibility [] "constructor" = [("constructor", false)] ∧
    (toggleSeasonVisibility [] "constructor").lookup "constructor" ≠ some true := by
  decide

/-! ## The fetch handlers -/

/-- The season stored for a season of the response. -/
theorem fetchPodcastDetails_ok (s : State) (body : ShowDetail) :
    fetchPodcastDetails s (.response true (.ok body)) =
      .ok ({ s with
              selectedPodcastDetails := some
                { body with
                  seasons := body.seasons.map
                    (fun season => { season with count := some season.episodes.length }) } },
        []) := by
  rfl

/-- C7: for a successful detail response (status ok, parsed body), the stored
`selectedPodcastDetails` has the seasons of the response in the same number and
order, each with `count` equal to the length of its episodes and with title,
image and episodes unchanged; id, title, image and description of the detail are
unchanged; nothing is logged and the rest of the state is untouched.  A body
with the single season S1 of episodes [e1, e2] is stored with count 2. -/
theorem fetchPodcastDetails_success (s : State) (body : ShowDetail) :
    ∃ stored : ShowDetail,
      fetchPodcastDetails s (.response true (.ok body)) =
        .ok ({ s with selectedPodcastDetails := some stored }, []) ∧
      stored.seasons.length = body.seasons.length ∧
      (∀ (i : Nat) (season : Season), body.seasons[i]? = some season →
        ∃ st : Season, stored.seasons[i]? = some st ∧ st.count = some season.episodes.length ∧
          st.title = season.title ∧ st.image = season.image ∧
          st.episodes = season.episodes) ∧
      stored.id = body.id ∧ stored.title = body.title ∧ stored.image = body.image ∧
      stored.description = body.description ∧
      (∀ (t img : String) (e1 e2 : Episode) (c : Option Nat),
        body.seasons = [⟨t, img, [e1, e2], c⟩] →
        stored.seasons = [⟨t, img, [e1, e2], some 2⟩]) := by
  refine ⟨_, fetchPodcastDetails_ok s body, ?_, ?_, rfl, rfl, rfl, rfl, ?_⟩
  · simp
  · intro i season hi
    refine ⟨{ season with count := some season.episodes.length }, ?_, rfl, rfl, rfl, rfl⟩
    simp [List.getElem?_map, hi]
  · intro t img e1 e2 c hb
    simp [hb]

/-- C7 on the scenario: the season S1 with two episodes is stored with count 2. -/
theorem fetchPodcastDetails_success_witness :
    ∃ stored : ShowDetail,
      fetchPodcastDetails initialState (.response true (.ok detailS1)) =
        .ok ({ initialState with selectedPodcastDetails := some stored }, []) ∧
      stored.seasons = [⟨"S1", "s1.png", [episode1, episode2], some 2⟩] :=
  (fetchPodcastDetails_success initialState detailS1).imp
    (fun _ h => ⟨h.1, h.2.2.2.2.2.2.2 _ _ _ _ _ rfl⟩)

/-- The mount effect never leaves a rejection unhandled. -/
theorem listFetchEffect_settles (s : State) (r : FetchResult (List Show)) :
    ∃ p, listFetchEffect s r = .ok p := by
  cases r with
  | rejected error => exact ⟨_, rfl⟩
  | response ok json =>
    cases json with
    | error e => exact ⟨_, rfl⟩
    | ok data => exact ⟨_, rfl⟩

/-- C8: from the initial state, when the list fetch rejects or the parsing of
its body fails, the effect settles normally (the failure is caught, one line is
logged) in the state that differs from the initial one only by `loading`, now
false; `data` is still empty. -/
theorem listFetchEffect_failure (r : FetchResult (List Show))
    (hfail : (∃ error, r = .rejected error) ∨ (∃ ok error, r = .response ok (.error error))) :
    ∃ s1 log, listFetchEffect initialState r = .ok (s1, log) ∧
      s1 = { initialState with loading := false } ∧
      s1.loading = false ∧ s1.data = [] ∧
      s1.sortType = initialState.sortType ∧ s1.sortOrder = initialState.sortOrder ∧
      s1.filterText = initialState.filterText ∧
      s1.selectedGenre = initialState.selectedGenre ∧
      s1.selectedPodcastDetails = initialState.selectedPodcastDetails ∧
      s1.seasonVisibility = initialState.seasonVisibility ∧
      s1.isAudioPlaying = initialState.isAudioPlaying ∧
      s1.favorites = initialState.favorites := by
  rcases hfail with ⟨error, rfl⟩ | ⟨ok, error, rfl⟩
  · exact ⟨_, _, rfl, rfl, rfl, rfl, rfl, rfl, rfl, rfl, rfl, rfl, rfl, rfl⟩
  · exact ⟨_, _, rfl, rfl, rfl, rfl, rfl, rfl, rfl, rfl, rfl, rfl, rfl, rfl⟩

/-- C8 on a rejected fetch. -/
theorem listFetchEffect_failure_witness :
    ∃ s1 log, listFetchEffect initialState (.rejected "Failed to fetch") = .ok (s1, log) ∧
      s1.loading = false ∧ s1.data = [] :=
  (listFetchEffect_failure (.rejected "Failed to fetch") (Or.inl ⟨_, rfl⟩)).imp
    (fun _ h => h.imp (fun _ h1 => ⟨h1.1, h1.2.2.1, h1.2.2.2.1⟩))

end PodcastApp
